import Mathlib

/-!
Verification of the indicator / strategy core of `open-trading-api`.

Shallow embedding conventions:
* pandas `Series` of floats over exact inputs are modelled as `List ℚ`
  (all defined) or `List (Option ℚ)` (`none` = NaN) as appropriate;
* python `int` quantities are `ℤ`, prices are `ℚ`;
* the strategy position dictionary (`BaseStrategy.positions`) is a
  function `String → Option Position`;
* the few places where genuine IEEE special values flow through the
  computation (the RSI `rs = avg_gain / avg_loss` step) use an explicit
  extended-value type `XFloat` with NaN/±Inf, with the IEEE rules for
  the operations the code performs (all float zeros reaching a
  denominator in this code are positive zeros);
* all embedded functions are total: python exceptions that are
  structurally unreachable for the inputs quantified over are noted in
  comments at the definition.
-/

namespace OTA

/-- Trading action passed to `BaseStrategy.update_position` and stored in
signal dictionaries.  The python code compares string literals
`'BUY'`/`'SELL'`; these are the only values callers produce. -/
inductive TradeAction where
  | BUY
  | SELL
deriving DecidableEq, Repr

/-- One entry of `BaseStrategy.positions`
(`{'quantity': ..., 'avg_price': ...}`, src/app/strategies/base.py line 30). -/
structure Position where
  quantity : ℤ
  avg_price : ℚ
deriving DecidableEq, Repr

/-- The `self.positions` dictionary of a strategy: stock code → position
entry (absent key = `none`). -/
def PositionBook : Type := String → Option Position

/-- Embedding of `BaseStrategy.update_position`
(src/app/strategies/base.py lines 27-44).

The python code first inserts `{'quantity': 0, 'avg_price': 0}` when the
stock code is absent (modelled by `getD ⟨0, 0⟩`), then on `BUY` replaces
the entry with the new quantity and weighted average price, and on
`SELL` decrements the quantity, deleting the entry once it is `≤ 0`.
There is no error return of any kind: the python method mutates the
dictionary and returns `None`.  (On `BUY` with `new_qty = 0` python
would raise `ZeroDivisionError`; the claims quantify over strictly
positive buy quantities, where that is unreachable.  In ℚ the embedding
totalises that division as `/ 0 = 0`.) -/
def update_position (positions : String → Option Position) (stock_code : String)
    (action : TradeAction) (quantity : ℤ) (price : ℚ) : String → Option Position :=
  let pos := (positions stock_code).getD ⟨0, 0⟩
  match action with
  | .BUY =>
    let new_qty := pos.quantity + quantity
    let new_avg := ((pos.quantity : ℚ) * pos.avg_price + (quantity : ℚ) * price) / (new_qty : ℚ)
    fun c => if c = stock_code then some ⟨new_qty, new_avg⟩ else positions c
  | .SELL =>
    let q := pos.quantity - quantity
    if q ≤ 0 then
      fun c => if c = stock_code then none else positions c
    else
      fun c => if c = stock_code then some ⟨q, pos.avg_price⟩ else positions c

/-- Evaluation lemma: BUY on a book whose entry for `code` is `pos`. -/
theorem update_position_buy_some (positions : String → Option Position) (code : String)
    (q : ℤ) (p : ℚ) (pos : Position) (h : positions code = some pos) :
    (update_position positions code .BUY q p) code
      = some ⟨pos.quantity + q,
          ((pos.quantity : ℚ) * pos.avg_price + (q : ℚ) * p) / ((pos.quantity + q : ℤ) : ℚ)⟩ := by
  simp [update_position, h]

/-- Evaluation lemma: BUY on a book with no entry for `code`. -/
theorem update_position_buy_none (positions : String → Option Position) (code : String)
    (q : ℤ) (p : ℚ) (h : positions code = none) :
    (update_position positions code .BUY q p) code
      = some ⟨q, ((0 : ℚ) * 0 + (q : ℚ) * p) / ((0 + q : ℤ) : ℚ)⟩ := by
  simp [update_position, h]

/-- Evaluation lemma: SELL deletes the entry once the decremented
quantity is `≤ 0`. -/
theorem update_position_sell_del (positions : String → Option Position) (code : String)
    (q : ℤ) (price : ℚ) (pos : Position) (h : positions code = some pos)
    (hq : pos.quantity - q ≤ 0) :
    (update_position positions code .SELL q price) code = none := by
  simp [update_position, h, hq]

/-- Claim C1, counterexample.  A book holding 1 share of "A" at average
price 10 receives a SELL of 2 (more than held): the position is silently
removed (`none` afterwards), not left unchanged, and `update_position`
has no error result at all — contradicting the claim that the operation
reports an InvalidFill error and leaves the position unchanged. -/
theorem update_position_oversell_no_error_cex :
    (update_position (fun c => if c = "A" then some ⟨1, 10⟩ else none) "A"
        .SELL 2 0) "A" = none ∧
    (fun c => if c = "A" then some (⟨1, 10⟩ : Position) else none) "A" = some ⟨1, 10⟩ := by
  constructor
  · rfl
  · rfl

/-- Claim C1 (amended): a SELL whose quantity strictly exceeds (indeed,
reaches or exceeds) the held quantity silently removes the position from
the book; no InvalidFill error is reported — `update_position` has no
error channel. -/
theorem update_position_oversell_removes (positions : String → Option Position)
    (code : String) (qty : ℤ) (avg : ℚ) (sell_qty : ℤ) (price : ℚ)
    (hpos : positions code = some ⟨qty, avg⟩) (hover : qty < sell_qty) :
    (update_position positions code .SELL sell_qty price) code = none :=
  update_position_sell_del positions code sell_qty price ⟨qty, avg⟩ hpos
    (show qty - sell_qty ≤ 0 by omega)

/-- Witness for `update_position_oversell_removes` at a concrete input. -/
theorem update_position_oversell_removes_witness :
    (update_position (fun c => if c = "B" then some ⟨3, 5⟩ else none) "B"
        .SELL 7 1) "B" = none :=
  update_position_oversell_removes (fun c => if c = "B" then some ⟨3, 5⟩ else none)
    "B" 3 5 7 1 (by simp) (by decide)

/-- Claim C4: starting from a book with no position for `code`,
BUY q1 at p1 then BUY q2 at p2 yields quantity `q1 + q2` and average
cost `(q1·p1 + q2·p2) / (q1 + q2)`; a subsequent SELL of the full
quantity removes the position from the book. -/
theorem buy_buy_sell_round_trip (positions : String → Option Position)
    (code : String) (q1 q2 : ℤ) (p1 p2 : ℚ)
    (h1 : 1 ≤ q1) (h2 : 1 ≤ q2) (hp1 : 0 < p1) (hp2 : 0 < p2)
    (h0 : positions code = none) :
    (update_position (update_position positions code .BUY q1 p1) code .BUY q2 p2) code
      = some ⟨q1 + q2, ((q1 : ℚ) * p1 + (q2 : ℚ) * p2) / ((q1 : ℚ) + (q2 : ℚ))⟩ ∧
    (update_position
        (update_position (update_position positions code .BUY q1 p1) code .BUY q2 p2)
        code .SELL (q1 + q2) 0) code = none := by
  have hq1 : ((q1 : ℚ)) ≠ 0 := by
    have : q1 ≠ 0 := by omega
    exact_mod_cast this
  have hb1 : (update_position positions code .BUY q1 p1) code = some ⟨q1, p1⟩ := by
    rw [update_position_buy_none positions code q1 p1 h0]
    congr 1
    simp only [Position.mk.injEq]
    refine ⟨trivial, ?_⟩
    push_cast
    field_simp
  have hb2 : (update_position (update_position positions code .BUY q1 p1) code .BUY q2 p2) code
      = some ⟨q1 + q2, ((q1 : ℚ) * p1 + (q2 : ℚ) * p2) / ((q1 : ℚ) + (q2 : ℚ))⟩ := by
    rw [update_position_buy_some _ code q2 p2 ⟨q1, p1⟩ hb1]
    congr 1
    simp only [Position.mk.injEq]
    refine ⟨trivial, ?_⟩
    push_cast
    ring_nf
  refine ⟨hb2, ?_⟩
  exact update_position_sell_del _ code (q1 + q2) 0 _ hb2
    (show q1 + q2 - (q1 + q2) ≤ 0 by omega)

/-- Witness for `buy_buy_sell_round_trip`: buy 1 at 10, buy 2 at 4,
then sell all 3.  Average cost is (10 + 8) / 3 = 6. -/
theorem buy_buy_sell_round_trip_witness :
    (update_position (update_position (fun _ => none) "A" .BUY 1 10) "A" .BUY 2 4) "A"
      = some ⟨1 + 2, (((1 : ℤ) : ℚ) * 10 + ((2 : ℤ) : ℚ) * 4) / (((1 : ℤ) : ℚ) + ((2 : ℤ) : ℚ))⟩ ∧
    (update_position
        (update_position (update_position (fun _ => none) "A" .BUY 1 10) "A" .BUY 2 4)
        "A" .SELL (1 + 2) 0) "A" = none :=
  buy_buy_sell_round_trip (fun _ => none) "A" 1 2 10 4 (by decide) (by decide)
    (by decide) (by decide) rfl

/-! ## Indicator engine (src/app/analyzers/technical_analyzer.py)

Rolling-window helpers.  pandas fixed rolling windows default to
`min_periods = window`, so an entry is NaN (`none`) exactly while fewer
than `window` observations are available.  All series fed to these
helpers in the analyzer are NaN-free (see the individual definitions),
so a window is complete iff the index is at least `window − 1`.
`window ≥ 1` throughout: pandas raises on `window ≤ 0` and no caller
passes that. -/

/-- `series.rolling(window=p).mean()` over an all-defined series. -/
def rollingMean (xs : List ℚ) (p : ℕ) : List (Option ℚ) :=
  (List.range xs.length).map fun i =>
    if i + 1 < p then none
    else some (((xs.take (i + 1)).drop (i + 1 - p)).sum / (p : ℚ))

/-- `series.rolling(window=p).std()` squared, i.e. the rolling sample
variance (pandas default `ddof = 1`; pandas yields NaN when the number
of observations is `≤ ddof`, hence for `p ≤ 1`). -/
def rollingVar (xs : List ℚ) (p : ℕ) : List (Option ℚ) :=
  (List.range xs.length).map fun i =>
    if i + 1 < p ∨ p ≤ 1 then none
    else
      let w := (xs.take (i + 1)).drop (i + 1 - p)
      let m := w.sum / (p : ℚ)
      some ((w.map fun x => (x - m) ^ 2).sum / ((p : ℚ) - 1))

/-- `TechnicalAnalyzer.calculate_sma` (lines 7-10). -/
def calculate_sma (series : List ℚ) (period : ℕ) : List (Option ℚ) :=
  rollingMean series period

/-- Recursive step of `series.ewm(span=period, adjust=False).mean()`:
`ema[i] = α·x[i] + (1 − α)·ema[i−1]`. -/
def emaFrom (a acc : ℚ) : List ℚ → List ℚ
  | [] => []
  | x :: xs =>
    let nxt := a * x + (1 - a) * acc
    nxt :: emaFrom a nxt xs

/-- `TechnicalAnalyzer.calculate_ema` (lines 12-15):
`ewm(span=period, adjust=False)` with `α = 2 / (period + 1)`, seeded
with the first value; defined at every index (no NaN warm-up). -/
def calculate_ema (series : List ℚ) (period : ℕ) : List ℚ :=
  match series with
  | [] => []
  | x :: xs => x :: emaFrom (2 / ((period : ℚ) + 1)) x xs

/-- True range series of `calculate_atr` (lines 20-24): at index 0 the
`shift()`-ed previous close is NaN, and `max(axis=1)` skips NaN, leaving
`high − low`; elsewhere the max of the three candidates. -/
def trueRange (highs lows closes : List ℚ) : List ℚ :=
  (List.range highs.length).map fun i =>
    let h := highs.getD i 0
    let l := lows.getD i 0
    if i = 0 then h - l
    else
      let pc := closes.getD (i - 1) 0
      max (h - l) (max |h - pc| |l - pc|)

/-- `TechnicalAnalyzer.calculate_atr` (lines 17-27). -/
def calculate_atr (highs lows closes : List ℚ) (period : ℕ) : List (Option ℚ) :=
  rollingMean (trueRange highs lows closes) period

/-- `TechnicalAnalyzer.calculate_bollinger_bands` (lines 29-39):
`(upper, middle, lower)` where `middle = SMA(close, period)` and the
band offset is `rolling std × std_dev`.  The standard deviation is a
real square root, so the bands live in `Option ℝ`. -/
noncomputable def calculate_bollinger_bands (closes : List ℚ) (period : ℕ) (std_dev : ℚ) :
    List (Option ℝ) × List (Option ℚ) × List (Option ℝ) :=
  let sma := calculate_sma closes period
  let std := (rollingVar closes period).map (Option.map fun v : ℚ => Real.sqrt (v : ℝ))
  (List.zipWith (fun m s =>
      match m, s with
      | some mv, some sv => some ((mv : ℝ) + sv * (std_dev : ℝ))
      | _, _ => none) sma std,
   sma,
   List.zipWith (fun m s =>
      match m, s with
      | some mv, some sv => some ((mv : ℝ) - sv * (std_dev : ℝ))
      | _, _ => none) sma std)

/-! Squeeze state booleans of `calculate_squeeze_momentum`
(technical_analyzer.py lines 57-60), elementwise over the per-bar values
of the four band series (`none` = NaN warm-up entry). -/

/-- pandas elementwise `<` between float series entries: any comparison
involving NaN is false. -/
def oLt (a b : Option ℝ) : Prop :=
  match a, b with
  | some x, some y => x < y
  | _, _ => False

/-- `squeeze_on = (bb_lower > kc_lower) & (bb_upper < kc_upper)` (line 58). -/
def squeeze_on (bb_lower bb_upper kc_lower kc_upper : Option ℝ) : Prop :=
  oLt kc_lower bb_lower ∧ oLt bb_upper kc_upper

/-- `squeeze_off = (bb_lower < kc_lower) | (bb_upper > kc_upper)` (line 59). -/
def squeeze_off (bb_lower bb_upper kc_lower kc_upper : Option ℝ) : Prop :=
  oLt bb_lower kc_lower ∨ oLt kc_upper bb_upper

/-- `no_squeeze = ~(squeeze_on | squeeze_off)` (line 60). -/
def no_squeeze (bb_lower bb_upper kc_lower kc_upper : Option ℝ) : Prop :=
  ¬(squeeze_on bb_lower bb_upper kc_lower kc_upper ∨
    squeeze_off bb_lower bb_upper kc_lower kc_upper)

/-- Claim C2, counterexample.  A bar whose bands straddle the Keltner
channel — `bb_lower = 1` strictly below `kc_lower = 2`, while
`bb_upper = 3` stays strictly inside `kc_upper = 4` — is classified
`squeeze_off` by the code (the condition is a disjunction over the two
sides), not `no_squeeze`, contradicting the claim that `off` requires
the band strictly outside and that straddling bars are `none`. -/
theorem squeeze_straddle_is_off_cex :
    ((1 : ℝ) < 2 ∧ (3 : ℝ) < 4) ∧
    squeeze_off (some 1) (some 3) (some 2) (some 4) ∧
    ¬no_squeeze (some 1) (some 3) (some 2) (some 4) := by
  refine ⟨⟨by norm_num, by norm_num⟩, Or.inl (show (1 : ℝ) < 2 by norm_num), ?_⟩
  intro h
  exact h (Or.inr (Or.inl (show (1 : ℝ) < 2 by norm_num)))

/-- Claim C2 (amended): for every bar with defined Bollinger/Keltner
inputs, exactly one of {`squeeze_on`, `squeeze_off`, `no_squeeze`} holds
(in particular `on` and `off` are never simultaneously true);
`on` iff the Bollinger band is strictly inside the Keltner channel, and
`off` iff at least one Bollinger band lies strictly outside it (which
includes straddling bars), `none` covering only the remaining
boundary-contact cases. -/
theorem squeeze_state_exactly_one (bl bu kl ku : ℝ) :
    ((squeeze_on (some bl) (some bu) (some kl) (some ku) ∧
      ¬squeeze_off (some bl) (some bu) (some kl) (some ku) ∧
      ¬no_squeeze (some bl) (some bu) (some kl) (some ku)) ∨
     (¬squeeze_on (some bl) (some bu) (some kl) (some ku) ∧
      squeeze_off (some bl) (some bu) (some kl) (some ku) ∧
      ¬no_squeeze (some bl) (some bu) (some kl) (some ku)) ∨
     (¬squeeze_on (some bl) (some bu) (some kl) (some ku) ∧
      ¬squeeze_off (some bl) (some bu) (some kl) (some ku) ∧
      no_squeeze (some bl) (some bu) (some kl) (some ku))) ∧
    (squeeze_on (some bl) (some bu) (some kl) (some ku) ↔ (kl < bl ∧ bu < ku)) ∧
    (squeeze_off (some bl) (some bu) (some kl) (some ku) ↔ (bl < kl ∨ ku < bu)) := by
  have hon : squeeze_on (some bl) (some bu) (some kl) (some ku) ↔ (kl < bl ∧ bu < ku) :=
    Iff.rfl
  have hoff : squeeze_off (some bl) (some bu) (some kl) (some ku) ↔ (bl < kl ∨ ku < bu) :=
    Iff.rfl
  refine ⟨?_, hon, hoff⟩
  by_cases h1 : kl < bl ∧ bu < ku
  · refine Or.inl ⟨hon.mpr h1, ?_, ?_⟩
    · intro hoffh
      rcases hoff.mp hoffh with hb | hb
      · exact absurd h1.1 (not_lt.mpr hb.le)
      · exact absurd h1.2 (not_lt.mpr hb.le)
    · intro hnone
      exact hnone (Or.inl (hon.mpr h1))
  · by_cases h2 : bl < kl ∨ ku < bu
    · exact Or.inr (Or.inl ⟨fun honh => h1 (hon.mp honh), hoff.mpr h2,
        fun hnone => hnone (Or.inr (hoff.mpr h2))⟩)
    · exact Or.inr (Or.inr ⟨fun honh => h1 (hon.mp honh),
        fun hoffh => h2 (hoff.mp hoffh),
        fun hor => hor.elim (fun o => h1 (hon.mp o)) (fun o => h2 (hoff.mp o))⟩)

/-! Warm-up lemmas for claim C7. -/

theorem length_rollingMean (xs : List ℚ) (p : ℕ) : (rollingMean xs p).length = xs.length := by
  simp [rollingMean]

theorem length_rollingVar (xs : List ℚ) (p : ℕ) : (rollingVar xs p).length = xs.length := by
  simp [rollingVar]

theorem length_trueRange (highs lows closes : List ℚ) :
    (trueRange highs lows closes).length = highs.length := by
  simp [trueRange]

theorem rollingMean_all_none (xs : List ℚ) (p : ℕ) (h : xs.length < p) :
    ∀ o ∈ rollingMean xs p, o = none := by
  intro o ho
  simp only [rollingMean, List.mem_map, List.mem_range] at ho
  obtain ⟨i, hi, rfl⟩ := ho
  rw [if_pos (by omega)]

theorem rollingVar_getElem?_none (xs : List ℚ) (p : ℕ) (i : ℕ) (h : xs.length < p)
    (hi : i < xs.length) : (rollingVar xs p)[i]? = some none := by
  simp only [rollingVar, List.getElem?_map, List.getElem?_range hi, Option.map_some']
  rw [if_pos (Or.inl (by omega))]

theorem rollingMean_getElem?_none (xs : List ℚ) (p : ℕ) (i : ℕ) (h : xs.length < p)
    (hi : i < xs.length) : (rollingMean xs p)[i]? = some none := by
  simp only [rollingMean, List.getElem?_map, List.getElem?_range hi, Option.map_some']
  rw [if_pos (by omega)]

theorem length_emaFrom (a acc : ℚ) (l : List ℚ) : (emaFrom a acc l).length = l.length := by
  induction l generalizing acc with
  | nil => rfl
  | cons x xs ih => simp [emaFrom, ih]

theorem length_calculate_ema (series : List ℚ) (p : ℕ) :
    (calculate_ema series p).length = series.length := by
  cases series with
  | nil => rfl
  | cons x xs => simp [calculate_ema, length_emaFrom]

/-- Claim C7: on a bar series shorter than the period, SMA, ATR and all
three Bollinger outputs consist solely of undefined entries, while EMA
is defined at every index from 0; all five embedded functions are total
(no exception — the python calls return NaN-filled series, never
raise). -/
theorem short_series_all_undefined (p : ℕ) (closes highs lows : List ℚ) (std_dev : ℚ)
    (hlen : closes.length < p) (hh : highs.length = closes.length)
    (hl : lows.length = closes.length) :
    (∀ o ∈ calculate_sma closes p, o = none) ∧
    (∀ o ∈ calculate_atr highs lows closes p, o = none) ∧
    (∀ o ∈ (calculate_bollinger_bands closes p std_dev).1, o = none) ∧
    (∀ o ∈ (calculate_bollinger_bands closes p std_dev).2.1, o = none) ∧
    (∀ o ∈ (calculate_bollinger_bands closes p std_dev).2.2, o = none) ∧
    (∀ i, i < closes.length → ∃ v, (calculate_ema closes p)[i]? = some v) := by
  have hsma : ∀ o ∈ calculate_sma closes p, o = none :=
    rollingMean_all_none closes p hlen
  have hband : ∀ (f : ℚ → ℝ → ℝ),
      ∀ o ∈ List.zipWith (fun m s =>
          match m, s with
          | some mv, some sv => some (f mv sv)
          | _, _ => (none : Option ℝ)) (calculate_sma closes p)
          ((rollingVar closes p).map (Option.map fun v : ℚ => Real.sqrt (v : ℝ))), o = none := by
    intro f o ho
    obtain ⟨i, hio⟩ := List.mem_iff_getElem?.mp ho
    rw [List.getElem?_zipWith] at hio
    by_cases hi : i < closes.length
    · rw [show (calculate_sma closes p)[i]? = some none from
        rollingMean_getElem?_none closes p i hlen hi] at hio
      rw [List.getElem?_map, rollingVar_getElem?_none closes p i hlen hi] at hio
      simp only [Option.map_some', Option.map_none'] at hio
      exact (Option.some_inj.mp hio).symm
    · rw [List.getElem?_eq_none (by
        simp only [calculate_sma, length_rollingMean]; omega)] at hio
      simp at hio
  refine ⟨hsma, ?_, ?_, hsma, ?_, ?_⟩
  · apply rollingMean_all_none
    rw [length_trueRange, hh]
    exact hlen
  · exact hband (fun mv sv => (mv : ℝ) + sv * (std_dev : ℝ))
  · exact hband (fun mv sv => (mv : ℝ) - sv * (std_dev : ℝ))
  · intro i hi
    have hlt : i < (calculate_ema closes p).length := by
      rw [length_calculate_ema]
      exact hi
    exact ⟨_, List.getElem?_eq_getElem hlt⟩

/-- Witness for `short_series_all_undefined`: a 2-bar series with
period 3. -/
theorem short_series_all_undefined_witness :
    (∀ o ∈ calculate_sma [1, 2] 3, o = none) ∧
    (∀ o ∈ calculate_atr [1, 2] [1, 2] [1, 2] 3, o = none) ∧
    (∀ o ∈ (calculate_bollinger_bands [1, 2] 3 2).1, o = none) ∧
    (∀ o ∈ (calculate_bollinger_bands [1, 2] 3 2).2.1, o = none) ∧
    (∀ o ∈ (calculate_bollinger_bands [1, 2] 3 2).2.2, o = none) ∧
    (∀ i, i < (List.length [(1 : ℚ), 2]) → ∃ v, (calculate_ema [1, 2] 3)[i]? = some v) :=
  short_series_all_undefined 3 [1, 2] [1, 2] [1, 2] 2 (by decide) rfl rfl

/-! ## RSI (`TechnicalAnalyzer.calculate_rsi`, lines 116-138)

`delta = close.diff()` has NaN at index 0; `delta.where(delta > 0, 0)`
replaces it (and every non-positive delta) by 0, so the gain/loss series
are everywhere defined, with a spurious 0 occupying index 0.  The
rolling means are NaN for the first `period − 1` indices; the python
loop then overwrites indices `period, …, n−1` in place with Wilder's
recursion, reading the value written one step earlier. -/

/-- Close-to-close differences: entry `i` is `close[i+1] − close[i]`
(the value `close.diff()` holds at series index `i + 1`). -/
def deltas (closes : List ℚ) : List ℚ :=
  (closes.zip closes.tail).map fun pr => pr.2 - pr.1

/-- Positive part of a delta (`delta.where(delta > 0, 0)`). -/
def gainPart (d : ℚ) : ℚ := if 0 < d then d else 0

/-- Negated negative part of a delta (`-delta.where(delta < 0, 0)`). -/
def lossPart (d : ℚ) : ℚ := if d < 0 then -d else 0

/-- The gain series (line 122): index 0 is the zeroed diff-NaN. -/
def gains (closes : List ℚ) : List ℚ :=
  match closes with
  | [] => []
  | _ :: _ => 0 :: (deltas closes).map gainPart

/-- The loss series (line 123): index 0 is the zeroed diff-NaN. -/
def losses (closes : List ℚ) : List ℚ :=
  match closes with
  | [] => []
  | _ :: _ => 0 :: (deltas closes).map lossPart

/-- Wilder recursion (lines 130-132) continued from accumulator `acc`:
each output is `(acc·(p−1) + x) / p`, threading the new value. -/
def wilderFrom (p : ℕ) (acc : ℚ) : List ℚ → List ℚ
  | [] => []
  | x :: xs =>
    let nxt := (acc * ((p : ℚ) - 1) + x) / (p : ℚ)
    nxt :: wilderFrom p nxt xs

/-- The smoothed average series the python code leaves in
`avg_gain`/`avg_loss` after the in-place loop: NaN for the first
`period − 1` indices, the plain rolling mean at index `period − 1`, and
Wilder's recursion from index `period` on.  When the series is shorter
than `period`, every entry is NaN (the loop body never runs). -/
def wilderAvg (xs : List ℚ) (p : ℕ) : List (Option ℚ) :=
  if p ≤ xs.length then
    List.replicate (p - 1) none ++
      some ((xs.take p).sum / (p : ℚ)) ::
        (wilderFrom p ((xs.take p).sum / (p : ℚ)) (xs.drop p)).map some
  else List.replicate xs.length none

/-- IEEE-754 extended value as it flows through `rs = avg_gain/avg_loss`
and `rsi = 100 − 100/(1 + rs)` (lines 135-136): exact finite value, the
two infinities, or NaN.  Every float zero reaching a denominator in this
code is a positive zero (means/sums of non-negative values), which fixes
the sign conventions below. -/
inductive XFloat where
  | nan
  | posInf
  | negInf
  | fin (q : ℚ)
deriving DecidableEq, Repr

/-- IEEE addition on the values above. -/
def XFloat.add : XFloat → XFloat → XFloat
  | nan, _ => nan
  | _, nan => nan
  | posInf, negInf => nan
  | posInf, _ => posInf
  | negInf, posInf => nan
  | negInf, _ => negInf
  | fin _, posInf => posInf
  | fin _, negInf => negInf
  | fin a, fin b => fin (a + b)

/-- IEEE negation. -/
def XFloat.neg : XFloat → XFloat
  | nan => nan
  | posInf => negInf
  | negInf => posInf
  | fin a => fin (-a)

/-- IEEE subtraction. -/
def XFloat.sub (a b : XFloat) : XFloat := a.add b.neg

/-- IEEE division (finite denominator zero is a positive zero here; a
finite value divided by an infinity is a zero, recorded as `fin 0`). -/
def XFloat.div : XFloat → XFloat → XFloat
  | nan, _ => nan
  | _, nan => nan
  | posInf, posInf => nan
  | posInf, negInf => nan
  | negInf, posInf => nan
  | negInf, negInf => nan
  | posInf, fin b => if 0 ≤ b then posInf else negInf
  | negInf, fin b => if 0 ≤ b then negInf else posInf
  | fin _, posInf => fin 0
  | fin _, negInf => fin 0
  | fin a, fin b =>
    if b = 0 then (if 0 < a then posInf else if a < 0 then negInf else nan)
    else fin (a / b)

/-- `rs = avg_gain / avg_loss` on one pair of per-index entries
(`none` = NaN warm-up entry). -/
def optDiv (g l : Option ℚ) : XFloat :=
  match g, l with
  | some a, some b => XFloat.div (.fin a) (.fin b)
  | _, _ => .nan

/-- `rsi = 100 − (100 / (1 + rs))` for one index (line 136). -/
def rsiOfAvg (g l : Option ℚ) : XFloat :=
  XFloat.sub (.fin 100) (XFloat.div (.fin 100) (XFloat.add (.fin 1) (optDiv g l)))

/-- `TechnicalAnalyzer.calculate_rsi` (lines 116-138). -/
def calculate_rsi (closes : List ℚ) (period : ℕ) : List XFloat :=
  List.zipWith rsiOfAvg (wilderAvg (gains closes) period) (wilderAvg (losses closes) period)

/-- Claim C3, counterexample.  On the flat series `[10,10,10,10]` with
period 2, the smoothed average loss at index 3 is 0 but so is the
average gain, so `rs = 0/0 = NaN` and the RSI entry is NaN — not the
claimed policy value 100, and not a defined value at all. -/
theorem rsi_flat_series_nan_cex :
    (wilderAvg (losses [10, 10, 10, 10]) 2)[3]? = some (some 0) ∧
    (calculate_rsi [10, 10, 10, 10] 2)[3]? = some XFloat.nan := by
  constructor
  · norm_num [wilderAvg, losses, deltas, wilderFrom, lossPart]
  · norm_num [calculate_rsi, wilderAvg, losses, gains, deltas, wilderFrom, lossPart,
      gainPart, rsiOfAvg, optDiv, XFloat.add, XFloat.div, XFloat.sub, XFloat.neg,
      List.getElem?_zipWith]

/-- Claim C3 (amended): at every index where the smoothed average loss
is 0 and the smoothed average gain is strictly positive, the RSI value
is defined and equals 100 (`rs = +∞`, `100/(1+∞) = 0`); when the
average gain is 0 as well — e.g. on a flat-close series — the RSI entry
is NaN (undefined), not 100. -/
theorem rsi_avg_loss_zero (closes : List ℚ) (p i : ℕ) (g : ℚ)
    (hl : (wilderAvg (losses closes) p)[i]? = some (some 0))
    (hg : (wilderAvg (gains closes) p)[i]? = some (some g))
    (hgpos : 0 < g) :
    (calculate_rsi closes p)[i]? = some (.fin 100) := by
  have hdiv : XFloat.div (.fin g) (.fin 0) = .posInf := by
    simp [XFloat.div, hgpos]
  have hval : rsiOfAvg (some g) (some 0) = .fin 100 := by
    simp only [rsiOfAvg, optDiv]
    rw [hdiv]
    simp [XFloat.add, XFloat.div, XFloat.sub, XFloat.neg]
  unfold calculate_rsi
  rw [List.getElem?_zipWith, hg, hl]
  show some (rsiOfAvg (some g) (some 0)) = some (.fin 100)
  rw [hval]

/-- Witness for `rsi_avg_loss_zero`: closes `[1,3,5]`, period 2, index 2
(average gain `3/2`, average loss 0). -/
theorem rsi_avg_loss_zero_witness :
    (calculate_rsi [1, 3, 5] 2)[2]? = some (.fin 100) :=
  rsi_avg_loss_zero [1, 3, 5] 2 2 (3 / 2)
    (by norm_num [wilderAvg, losses, deltas, wilderFrom, lossPart])
    (by norm_num [wilderAvg, gains, deltas, wilderFrom, gainPart])
    (by norm_num)

/-! Structure lemmas for the Wilder average series (claim C9). -/

theorem length_wilderFrom (p : ℕ) (acc : ℚ) (l : List ℚ) :
    (wilderFrom p acc l).length = l.length := by
  induction l generalizing acc with
  | nil => rfl
  | cons x xs ih => simp [wilderFrom, ih]

theorem wilderFrom_rec (p : ℕ) (l : List ℚ) (acc : ℚ) (j : ℕ) (hj : j + 1 < l.length) :
    ∃ a b, (wilderFrom p acc l)[j]? = some a ∧ (wilderFrom p acc l)[j + 1]? = some b ∧
      b = (a * ((p : ℚ) - 1) + l.getD (j + 1) 0) / (p : ℚ) := by
  induction l generalizing acc j with
  | nil => simp at hj
  | cons x xs ih =>
    cases j with
    | zero =>
      cases xs with
      | nil => simp at hj
      | cons y ys =>
        refine ⟨(acc * ((p : ℚ) - 1) + x) / (p : ℚ),
          (((acc * ((p : ℚ) - 1) + x) / (p : ℚ)) * ((p : ℚ) - 1) + y) / (p : ℚ),
          ?_, ?_, ?_⟩
        · rfl
        · simp only [wilderFrom, List.getElem?_cons_succ, List.getElem?_cons_zero]
        · rfl
    | succ j' =>
      have hj' : j' + 1 < xs.length := by
        simp only [List.length_cons] at hj
        omega
      obtain ⟨a, b, h1, h2, h3⟩ := ih ((acc * ((p : ℚ) - 1) + x) / (p : ℚ)) j' hj'
      refine ⟨a, b, ?_, ?_, ?_⟩
      · simpa [wilderFrom] using h1
      · simpa [wilderFrom] using h2
      · simpa [List.getD_cons_succ] using h3

theorem getD_drop_rat (xs : List ℚ) (p k : ℕ) :
    (xs.drop p).getD k 0 = xs.getD (p + k) 0 := by
  simp [List.getD_eq_getElem?_getD, List.getElem?_drop]

/-- The first non-NaN entry of the smoothed average sits at index
`p − 1` and is the plain rolling mean of the first `p` entries. -/
theorem wilderAvg_init (xs : List ℚ) (p : ℕ) (hp1 : 1 ≤ p) (hp : p ≤ xs.length) :
    (wilderAvg xs p)[p - 1]? = some (some ((xs.take p).sum / (p : ℚ))) := by
  unfold wilderAvg
  rw [if_pos hp]
  rw [List.getElem?_append_right (by simp)]
  simp

/-- Entries before index `p − 1` are NaN. -/
theorem wilderAvg_warmup (xs : List ℚ) (p i : ℕ) (hp : p ≤ xs.length) (hi : i < p - 1) :
    (wilderAvg xs p)[i]? = some none := by
  unfold wilderAvg
  rw [if_pos hp]
  rw [List.getElem?_append_left (by simpa using hi)]
  simp [hi]

/-- From index `p` on, the smoothed-average entry is the corresponding
element of the `wilderFrom` tail. -/
theorem wilderAvg_getElem?_ge (xs : List ℚ) (p k : ℕ) (hp1 : 1 ≤ p) (hk : p ≤ k)
    (hklen : k < xs.length) :
    (wilderAvg xs p)[k]? =
      Option.map some ((wilderFrom p ((xs.take p).sum / (p : ℚ)) (xs.drop p))[k - p]?) := by
  have hp : p ≤ xs.length := le_of_lt (lt_of_le_of_lt hk hklen)
  unfold wilderAvg
  rw [if_pos hp]
  rw [List.getElem?_append_right (by simp only [List.length_replicate]; omega)]
  simp only [List.length_replicate]
  rw [show k - (p - 1) = (k - p) + 1 by omega]
  rw [List.getElem?_cons_succ, List.getElem?_map]

/-- From index `p` on, every consecutive pair of smoothed averages obeys
Wilder's recursion `avg[i] = (avg[i−1]·(p−1) + value[i]) / p`. -/
theorem wilderAvg_rec (xs : List ℚ) (p i : ℕ) (hp1 : 1 ≤ p) (hi : p ≤ i)
    (hilen : i < xs.length) :
    ∃ a b, (wilderAvg xs p)[i - 1]? = some (some a) ∧
      (wilderAvg xs p)[i]? = some (some b) ∧
      b = (a * ((p : ℚ) - 1) + xs.getD i 0) / (p : ℚ) := by
  have hp : p ≤ xs.length := le_of_lt (lt_of_le_of_lt hi hilen)
  rcases Nat.eq_or_lt_of_le hi with hip | hip
  · subst hip
    obtain ⟨y, ys, hcons⟩ : ∃ y ys, xs.drop p = y :: ys := by
      cases hdp : xs.drop p with
      | nil =>
        exfalso
        have := congrArg List.length hdp
        simp at this
        omega
      | cons y ys => exact ⟨y, ys, rfl⟩
    have hy : xs.getD p 0 = y := by
      have h0 := getD_drop_rat xs p 0
      rw [hcons] at h0
      simpa using h0.symm
    refine ⟨(xs.take p).sum / (p : ℚ),
      (((xs.take p).sum / (p : ℚ)) * ((p : ℚ) - 1) + xs.getD p 0) / (p : ℚ),
      wilderAvg_init xs p hp1 hp, ?_, rfl⟩
    rw [wilderAvg_getElem?_ge xs p p hp1 le_rfl hilen]
    rw [Nat.sub_self, hcons, hy]
    simp only [wilderFrom, List.getElem?_cons_zero, Option.map_some']
  · have hj : (i - p - 1) + 1 < (xs.drop p).length := by
      simp only [List.length_drop]
      omega
    obtain ⟨a, b, h1, h2, h3⟩ :=
      wilderFrom_rec p (xs.drop p) ((xs.take p).sum / (p : ℚ)) (i - p - 1) hj
    refine ⟨a, b, ?_, ?_, ?_⟩
    · rw [wilderAvg_getElem?_ge xs p (i - 1) hp1 (by omega) (by omega)]
      rw [show i - 1 - p = i - p - 1 by omega, h1]
      rfl
    · rw [wilderAvg_getElem?_ge xs p i hp1 (by omega) hilen]
      rw [show i - p = (i - p - 1) + 1 by omega, h2]
      rfl
    · rw [h3, getD_drop_rat, show p + (i - p - 1 + 1) = i by omega]

theorem length_gains (c : ℚ) (cs : List ℚ) :
    (gains (c :: cs)).length = cs.length + 1 := by
  simp [gains, deltas, List.length_zip]

theorem length_losses (c : ℚ) (cs : List ℚ) :
    (losses (c :: cs)).length = cs.length + 1 := by
  simp [losses, deltas, List.length_zip]

/-- The initial average gain the way the specification words it:
simple arithmetic mean of the gains of the first `period` close-to-close
deltas.  Modelled from the spec sentence "initial average gain/loss =
simple mean over first `period` deltas", for comparison against the
embedded computation. -/
def specInitialAvgGain (closes : List ℚ) (period : ℕ) : ℚ :=
  (((deltas closes).take period).map gainPart).sum / (period : ℚ)

/-- Claim C9, counterexample.  closes `[1,3,5]`, period 2: the first
defined average gain (index 1) is the rolling mean over the first two
gain entries `[0, 2]` — the zeroed diff-NaN included — i.e. `1`, while
the spec's simple mean over the first two deltas' gains `[2, 2]` is `2`. -/
theorem rsi_initial_avg_cex :
    (wilderAvg (gains [1, 3, 5]) 2)[1]? = some (some 1) ∧
    specInitialAvgGain [1, 3, 5] 2 = 2 ∧ (1 : ℚ) ≠ 2 := by
  refine ⟨?_, ?_, by norm_num⟩
  · norm_num [wilderAvg, gains, deltas, wilderFrom, gainPart]
  · norm_num [specInitialAvgGain, deltas, gainPart]

/-- Claim C9 (amended): the first defined average gain/loss (at index
`period − 1`) equals the sum of the gains (respectively losses) of the
first `period − 1` close-to-close deltas divided by `period` — the
rolling window includes the zeroed diff entry at index 0, so it is NOT
the simple mean of the first `period` deltas; at every subsequent index
`i ≥ period`, Wilder's recursion
`avg[i] = (avg[i−1]·(period−1) + value[i]) / period` is applied. -/
theorem rsi_initial_and_recursion (closes : List ℚ) (p : ℕ) (hp1 : 1 ≤ p)
    (hp : p ≤ closes.length) :
    ((wilderAvg (gains closes) p)[p - 1]? =
       some (some ((((deltas closes).take (p - 1)).map gainPart).sum / (p : ℚ)))) ∧
    ((wilderAvg (losses closes) p)[p - 1]? =
       some (some ((((deltas closes).take (p - 1)).map lossPart).sum / (p : ℚ)))) ∧
    (∀ i, p ≤ i → i < closes.length →
      ∃ a b, (wilderAvg (gains closes) p)[i - 1]? = some (some a) ∧
        (wilderAvg (gains closes) p)[i]? = some (some b) ∧
        b = (a * ((p : ℚ) - 1) + (gains closes).getD i 0) / (p : ℚ)) ∧
    (∀ i, p ≤ i → i < closes.length →
      ∃ a b, (wilderAvg (losses closes) p)[i - 1]? = some (some a) ∧
        (wilderAvg (losses closes) p)[i]? = some (some b) ∧
        b = (a * ((p : ℚ) - 1) + (losses closes).getD i 0) / (p : ℚ)) := by
  obtain ⟨c, cs, rfl⟩ : ∃ c cs, closes = c :: cs := by
    cases closes with
    | nil =>
      exfalso
      simp at hp
      omega
    | cons c cs => exact ⟨c, cs, rfl⟩
  have hlen : (c :: cs).length = cs.length + 1 := by simp
  have hpg : p ≤ (gains (c :: cs)).length := by
    rw [length_gains]
    simpa using hp
  have hpl : p ≤ (losses (c :: cs)).length := by
    rw [length_losses]
    simpa using hp
  obtain ⟨q, rfl⟩ : ∃ q, p = q + 1 := ⟨p - 1, by omega⟩
  have hsum_g : ((gains (c :: cs)).take (q + 1)).sum
      = (((deltas (c :: cs)).take q).map gainPart).sum := by
    show ((0 :: (deltas (c :: cs)).map gainPart).take (q + 1)).sum = _
    rw [List.take_succ_cons, List.sum_cons, zero_add, List.map_take]
  have hsum_l : ((losses (c :: cs)).take (q + 1)).sum
      = (((deltas (c :: cs)).take q).map lossPart).sum := by
    show ((0 :: (deltas (c :: cs)).map lossPart).take (q + 1)).sum = _
    rw [List.take_succ_cons, List.sum_cons, zero_add, List.map_take]
  refine ⟨?_, ?_, ?_, ?_⟩
  · rw [wilderAvg_init (gains (c :: cs)) (q + 1) hp1 hpg, hsum_g]
    simp
  · rw [wilderAvg_init (losses (c :: cs)) (q + 1) hp1 hpl, hsum_l]
    simp
  · intro i hi hilen
    exact wilderAvg_rec (gains (c :: cs)) (q + 1) i hp1 hi (by rw [length_gains]; simpa using hilen)
  · intro i hi hilen
    exact wilderAvg_rec (losses (c :: cs)) (q + 1) i hp1 hi (by rw [length_losses]; simpa using hilen)

/-- Witness for `rsi_initial_and_recursion`: closes `[1,3,5]`, period 2. -/
theorem rsi_initial_and_recursion_witness :
    ((wilderAvg (gains [(1 : ℚ), 3, 5]) 2)[2 - 1]? =
       some (some ((((deltas [(1 : ℚ), 3, 5]).take (2 - 1)).map gainPart).sum / (2 : ℚ)))) ∧
    ((wilderAvg (losses [(1 : ℚ), 3, 5]) 2)[2 - 1]? =
       some (some ((((deltas [(1 : ℚ), 3, 5]).take (2 - 1)).map lossPart).sum / (2 : ℚ)))) ∧
    (∀ i, 2 ≤ i → i < (List.length [(1 : ℚ), 3, 5]) →
      ∃ a b, (wilderAvg (gains [(1 : ℚ), 3, 5]) 2)[i - 1]? = some (some a) ∧
        (wilderAvg (gains [(1 : ℚ), 3, 5]) 2)[i]? = some (some b) ∧
        b = (a * ((2 : ℚ) - 1) + (gains [(1 : ℚ), 3, 5]).getD i 0) / (2 : ℚ)) ∧
    (∀ i, 2 ≤ i → i < (List.length [(1 : ℚ), 3, 5]) →
      ∃ a b, (wilderAvg (losses [(1 : ℚ), 3, 5]) 2)[i - 1]? = some (some a) ∧
        (wilderAvg (losses [(1 : ℚ), 3, 5]) 2)[i]? = some (some b) ∧
        b = (a * ((2 : ℚ) - 1) + (losses [(1 : ℚ), 3, 5]).getD i 0) / (2 : ℚ)) :=
  rsi_initial_and_recursion [1, 3, 5] 2 (by decide) (by decide)

/-! ## Strategy signal generation
(src/app/strategies/squeeze_momentum.py lines 41-86,
 src/app/strategies/macd_strategy.py lines 45-92)

`generate_signals` reads scalar values extracted from the analysis dict;
the analysis-input structures below hold exactly those extracted values
(`iloc[-1]`, `iloc[-2]` with the `len > 1 else 0 / else False`
fallbacks applied), quantifying over every value those extractions can
produce.  The signal dicts also carry strategy-specific diagnostic keys
(`momentum`, `macd`, `signal`, `histogram`, `rsi`); no claim depends on
them, so the embedded `Signal` keeps the shared keys. -/

/-- One signal dict produced by either strategy. -/
structure Signal where
  stock_code : String
  action : TradeAction
  reason : String
  price : ℚ
  confidence : ℚ
deriving DecidableEq, Repr

/-- `params['min_momentum']` of `SqueezeMomentumStrategy.__init__`. -/
def squeeze_min_momentum : ℚ := 1 / 2

/-- `params['volume_threshold']` of `SqueezeMomentumStrategy.__init__`. -/
def squeeze_volume_threshold : ℚ := 3 / 2

/-- `params['min_histogram']` of `MACDStrategy.__init__`. -/
def macd_min_histogram : ℚ := 1 / 10

/-- Inputs of `SqueezeMomentumStrategy.generate_signals` (lines 44-57):
last/second-last momentum, last `squeeze_off`, second-last `squeeze_on`,
last rolling average volume (`none` = NaN when fewer than 20 bars),
current volume and price. -/
structure SqueezeAnalysis where
  current_momentum : ℚ
  prev_momentum : ℚ
  squeeze_off_current : Bool
  squeeze_on_prev : Bool
  avg_volume : Option ℚ
  current_volume : ℚ
  current_price : ℚ
deriving DecidableEq, Repr

/-- `volume_surge = current_volume > avg_volume * threshold` (line 57);
a NaN average volume compares false. -/
def volume_surge (a : SqueezeAnalysis) : Bool :=
  match a.avg_volume with
  | some v => decide (a.current_volume > v * squeeze_volume_threshold)
  | none => false

/-- The BUY guard of lines 60-62. -/
def squeeze_buy_condition (a : SqueezeAnalysis) : Prop :=
  a.squeeze_off_current = true ∧ a.squeeze_on_prev = true ∧
  a.current_momentum > squeeze_min_momentum ∧
  a.current_momentum > a.prev_momentum ∧ volume_surge a = true

instance (a : SqueezeAnalysis) : Decidable (squeeze_buy_condition a) := by
  unfold squeeze_buy_condition
  infer_instance

/-- The SELL guard of lines 74-75 (`elif`). -/
def squeeze_sell_condition (positions : String → Option Position)
    (stock_code : String) (a : SqueezeAnalysis) : Prop :=
  a.current_momentum < 0 ∧ a.prev_momentum > 0 ∧ (positions stock_code).isSome = true

instance (positions : String → Option Position) (stock_code : String)
    (a : SqueezeAnalysis) : Decidable (squeeze_sell_condition positions stock_code a) := by
  unfold squeeze_sell_condition
  infer_instance

/-- `SqueezeMomentumStrategy.generate_signals` (lines 41-86). -/
def squeeze_generate_signals (stock_code : String) (a : SqueezeAnalysis)
    (positions : String → Option Position) : List Signal :=
  if squeeze_buy_condition a then
    [⟨stock_code, .BUY, "Squeeze 해제 + 상승 모멘텀", a.current_price,
      min (|a.current_momentum| * 10) 100⟩]
  else if squeeze_sell_condition positions stock_code a then
    [⟨stock_code, .SELL, "모멘텀 하락 전환", a.current_price,
      min (|a.current_momentum| * 10) 100⟩]
  else []

/-- Inputs of `MACDStrategy.generate_signals` (lines 51-56): last MACD,
signal, histogram values, second-last histogram (0-fallback), last RSI
(`none` = NaN when the RSI warm-up is incomplete), current price. -/
structure MacdAnalysis where
  current_macd : ℚ
  current_signal : ℚ
  current_histogram : ℚ
  prev_histogram : ℚ
  current_rsi : Option ℚ
  current_price : ℚ
deriving DecidableEq, Repr

/-- `current_rsi < 50`; false when the RSI entry is NaN. -/
def rsi_below_50 (r : Option ℚ) : Bool :=
  match r with
  | some v => decide (v < 50)
  | none => false

/-- `current_rsi > 50`; false when the RSI entry is NaN. -/
def rsi_above_50 (r : Option ℚ) : Bool :=
  match r with
  | some v => decide (v > 50)
  | none => false

/-- The BUY guard of lines 59-61. -/
def macd_buy_condition (a : MacdAnalysis) : Prop :=
  a.current_macd > a.current_signal ∧
  a.prev_histogram ≤ 0 ∧ a.current_histogram > 0 ∧
  rsi_below_50 a.current_rsi = true ∧ a.current_histogram > macd_min_histogram

instance (a : MacdAnalysis) : Decidable (macd_buy_condition a) := by
  unfold macd_buy_condition
  infer_instance

/-- The SELL guard of lines 76-78 (`elif`). -/
def macd_sell_condition (positions : String → Option Position)
    (stock_code : String) (a : MacdAnalysis) : Prop :=
  a.current_macd < a.current_signal ∧
  a.prev_histogram ≥ 0 ∧ a.current_histogram < 0 ∧
  rsi_above_50 a.current_rsi = true ∧ (positions stock_code).isSome = true

instance (positions : String → Option Position) (stock_code : String)
    (a : MacdAnalysis) : Decidable (macd_sell_condition positions stock_code a) := by
  unfold macd_sell_condition
  infer_instance

/-- `MACDStrategy.generate_signals` (lines 45-92). -/
def macd_generate_signals (stock_code : String) (a : MacdAnalysis)
    (positions : String → Option Position) : List Signal :=
  if macd_buy_condition a then
    [⟨stock_code, .BUY, "MACD 골든크로스 + RSI 과매도", a.current_price,
      min ((a.current_histogram / macd_min_histogram) * 20) 100⟩]
  else if macd_sell_condition positions stock_code a then
    [⟨stock_code, .SELL, "MACD 데드크로스 + RSI 과매수", a.current_price,
      min ((|a.current_histogram| / macd_min_histogram) * 20) 100⟩]
  else []

/-- Claim C5: every signal either strategy emits has confidence in
`[0, 100]` — `min (… , 100)` caps the raw formula at 100, and under the
emission guards the raw value is never negative. -/
theorem signal_confidence_in_range (stock_code : String) (sq : SqueezeAnalysis)
    (ma : MacdAnalysis) (positions : String → Option Position) (s : Signal)
    (hs : s ∈ squeeze_generate_signals stock_code sq positions ∨
          s ∈ macd_generate_signals stock_code ma positions) :
    0 ≤ s.confidence ∧ s.confidence ≤ 100 := by
  rcases hs with hs | hs
  · unfold squeeze_generate_signals at hs
    split_ifs at hs with h1 h2
    · rw [List.mem_singleton] at hs
      subst hs
      exact ⟨le_min (mul_nonneg (abs_nonneg _) (by norm_num)) (by norm_num),
        min_le_right _ _⟩
    · rw [List.mem_singleton] at hs
      subst hs
      exact ⟨le_min (mul_nonneg (abs_nonneg _) (by norm_num)) (by norm_num),
        min_le_right _ _⟩
    · simp at hs
  · unfold macd_generate_signals at hs
    split_ifs at hs with h1 h2
    · rw [List.mem_singleton] at hs
      subst hs
      have hh : (0 : ℚ) < ma.current_histogram := h1.2.2.1
      exact ⟨le_min (mul_nonneg (div_nonneg hh.le (by norm_num [macd_min_histogram]))
          (by norm_num)) (by norm_num), min_le_right _ _⟩
    · rw [List.mem_singleton] at hs
      subst hs
      exact ⟨le_min (mul_nonneg (div_nonneg (abs_nonneg _)
          (by norm_num [macd_min_histogram])) (by norm_num)) (by norm_num),
        min_le_right _ _⟩
    · simp at hs

/-- Witness for `signal_confidence_in_range`: a squeeze BUY emitted at
momentum 1 (confidence `min 10 100`). -/
theorem signal_confidence_in_range_witness :
    0 ≤ (Signal.mk "A" .BUY "Squeeze 해제 + 상승 모멘텀" 100
        (min (|(1 : ℚ)| * 10) 100)).confidence ∧
    (Signal.mk "A" .BUY "Squeeze 해제 + 상승 모멘텀" 100
        (min (|(1 : ℚ)| * 10) 100)).confidence ≤ 100 :=
  signal_confidence_in_range "A" ⟨1, 0, true, true, some 1, 2, 100⟩
    ⟨0, 0, 0, 0, none, 0⟩ (fun _ => none) _
    (Or.inl (by
      have hc : squeeze_buy_condition ⟨1, 0, true, true, some 1, 2, 100⟩ := by
        refine ⟨rfl, rfl, ?_, ?_, ?_⟩
        · show (1 : ℚ) > squeeze_min_momentum
          norm_num [squeeze_min_momentum]
        · show (1 : ℚ) > 0
          norm_num
        · show volume_surge ⟨1, 0, true, true, some 1, 2, 100⟩ = true
          norm_num [volume_surge, squeeze_volume_threshold]
      unfold squeeze_generate_signals
      rw [if_pos hc]
      exact List.mem_singleton.mpr rfl))

/-- Claim C6, counterexample.  Momentum slope exactly 0 at the current
bar, strictly positive before, with an open position: the claim (SELL on
a crossing to "non-positive, ≤ 0") requires a SELL, but the code tests
`current_momentum < 0` strictly and emits nothing. -/
theorem squeeze_sell_zero_momentum_cex :
    squeeze_generate_signals "A" ⟨0, 1, false, false, none, 0, 100⟩
        (fun _ => some ⟨1, 10⟩) = [] ∧
    ((fun _ => some (⟨1, 10⟩ : Position)) "A").isSome = true ∧
    (0 : ℚ) < 1 ∧ (0 : ℚ) ≤ 0 := by
  have hn1 : ¬ squeeze_buy_condition ⟨0, 1, false, false, none, 0, 100⟩ := by
    rintro ⟨h, -⟩
    simp at h
  have hn2 : ¬ squeeze_sell_condition (fun _ => some ⟨1, 10⟩) "A"
      ⟨0, 1, false, false, none, 0, 100⟩ := by
    rintro ⟨h, -⟩
    norm_num at h
  refine ⟨?_, rfl, by norm_num, le_refl 0⟩
  unfold squeeze_generate_signals
  rw [if_neg hn1, if_neg hn2]

/-- Claim C6 (amended): `SqueezeMomentumStrategy.generate_signals` emits
a SELL iff an open position exists for the instrument AND the momentum
slope crosses from strictly positive at the previous bar to strictly
NEGATIVE (`< 0`, not `≤ 0`) at the current bar.  (The `elif` cannot be
preempted by the BUY branch: the BUY guard needs momentum above the
positive `min_momentum`, incompatible with a negative momentum.) -/
theorem squeeze_sell_iff (stock_code : String) (a : SqueezeAnalysis)
    (positions : String → Option Position) :
    (∃ s ∈ squeeze_generate_signals stock_code a positions, s.action = .SELL) ↔
      ((positions stock_code).isSome = true ∧
        0 < a.prev_momentum ∧ a.current_momentum < 0) := by
  constructor
  · rintro ⟨s, hs, hact⟩
    unfold squeeze_generate_signals at hs
    split_ifs at hs with h1 h2
    · rw [List.mem_singleton] at hs
      subst hs
      simp at hact
    · exact ⟨h2.2.2, h2.2.1, h2.1⟩
    · simp at hs
  · rintro ⟨hpos, hprev, hcur⟩
    have hnotbuy : ¬ squeeze_buy_condition a := by
      rintro ⟨-, -, hm, -, -⟩
      rw [show squeeze_min_momentum = 1 / 2 from rfl] at hm
      linarith
    refine ⟨⟨stock_code, .SELL, "모멘텀 하락 전환", a.current_price,
      min (|a.current_momentum| * 10) 100⟩, ?_, rfl⟩
    unfold squeeze_generate_signals
    rw [if_neg hnotbuy, if_pos ⟨hcur, hprev, hpos⟩]
    exact List.mem_singleton.mpr rfl

/-- Claim C10: a single `generate_signals` call of either strategy
returns at most one signal (the branches are an `if`/`elif` each
appending one dict). -/
theorem generate_signals_at_most_one (stock_code : String) (sq : SqueezeAnalysis)
    (ma : MacdAnalysis) (positions : String → Option Position) :
    (squeeze_generate_signals stock_code sq positions).length ≤ 1 ∧
    (macd_generate_signals stock_code ma positions).length ≤ 1 := by
  constructor
  · unfold squeeze_generate_signals
    split_ifs <;> simp
  · unfold macd_generate_signals
    split_ifs <;> simp

/-! ## Volume profile (`TechnicalAnalyzer.calculate_volume_profile`,
technical_analyzer.py lines 182-205)

`pd.cut(close, bins=n)` with an integer bin count takes
`mn, mx = min(close), max(close)` and, when `mn == mx` (degenerate
range), pads both ends by 0.1% of the value (or by `0.001` when the
value is 0) BEFORE the `linspace`; otherwise it widens only the lowest
edge by 0.1% of the range after the `linspace`.  Values land in
right-closed intervals `(edge[k], edge[k+1]]`.  `pd.cut` therefore does
NOT raise on a constant non-empty series.  On exact inputs the only
raising path inside the `try` block is the empty frame (`pd.cut` /
`idxmax` on empty input), so the embedding takes the `except` fallback
exactly for the empty series, with `poc = 0` because the fallback reads
`df['close'].iloc[-1] if len(df) > 0 else 0`.
`groupby(price_bins)['volume'].sum()` produces one row per bin category
in bin order; `idxmax` picks the first maximal bin, and `poc` is that
interval's midpoint.  The returned `avg_volume` key (a rolling mean
independent of the profile) is not needed by any claim and is omitted
from the embedded result. -/

/-- Tail recursion of `Series.idxmax`: first index of the maximum. -/
def idxmaxAux : List ℚ → ℕ → ℕ → ℚ → ℕ
  | [], _, bi, _ => bi
  | x :: xs, i, bi, bv =>
    if bv < x then idxmaxAux xs (i + 1) i x else idxmaxAux xs (i + 1) bi bv

/-- `Series.idxmax` over the per-bin volume sums. -/
def idxmax : List ℚ → ℕ
  | [] => 0
  | x :: xs => idxmaxAux xs 1 0 x

/-- The `pd.cut` bin edges for data range `[mn, mx]` and `n` bins. -/
def cutEdges (mn mx : ℚ) (n : ℕ) : ℕ → ℚ :=
  if mn = mx then
    let lo := if mn = 0 then mn - 1 / 1000 else mn - |mn| / 1000
    let hi := if mx = 0 then mx + 1 / 1000 else mx + |mx| / 1000
    fun k => lo + (hi - lo) * (k : ℚ) / (n : ℚ)
  else
    fun k =>
      if k = 0 then mn - (mx - mn) / 1000
      else mn + (mx - mn) * (k : ℚ) / (n : ℚ)

/-- Bin assignment of one close value: the right-closed interval
`(edge[k], edge[k+1]]` containing it (`none` = outside every bin, the
NaN category dropped by `groupby`). -/
def binIndex (edges : ℕ → ℚ) (n : ℕ) (v : ℚ) : Option ℕ :=
  (List.range n).find? fun k => decide (edges k < v) && decide (v ≤ edges (k + 1))

/-- `df.groupby(price_bins)['volume'].sum()`: per-bin volume totals, one
entry per bin in bin order. -/
def volume_profile_buckets (closes volumes : List ℚ) (bins : ℕ) (edges : ℕ → ℚ) : List ℚ :=
  (List.range bins).map fun k =>
    ((closes.zip volumes).filter fun pv => binIndex edges bins pv.1 = some k).foldl
      (fun acc pv => acc + pv.2) 0

/-- `TechnicalAnalyzer.calculate_volume_profile`, returning
`(volume_profile, poc)`. -/
def calculate_volume_profile (closes volumes : List ℚ) (bins : ℕ) : List ℚ × ℚ :=
  match closes with
  | [] => ([], 0)
  | c :: cs =>
    let mn := cs.foldl min c
    let mx := cs.foldl max c
    let edges := cutEdges mn mx bins
    let prof := volume_profile_buckets (c :: cs) volumes bins edges
    (prof, (edges (idxmax prof) + edges (idxmax prof + 1)) / 2)

theorem foldl_min_replicate (c : ℚ) (m : ℕ) : (List.replicate m c).foldl min c = c := by
  induction m with
  | zero => rfl
  | succ k ih => simpa [List.replicate_succ, min_self] using ih

theorem foldl_max_replicate (c : ℚ) (m : ℕ) : (List.replicate m c).foldl max c = c := by
  induction m with
  | zero => rfl
  | succ k ih => simpa [List.replicate_succ, max_self] using ih

theorem idxmaxAux_lt (l : List ℚ) : ∀ (i bi : ℕ) (bv : ℚ) (N : ℕ),
    bi < N → i + l.length ≤ N → idxmaxAux l i bi bv < N := by
  induction l with
  | nil =>
    intro i bi bv N hbi hle
    simpa [idxmaxAux] using hbi
  | cons x xs ih =>
    intro i bi bv N hbi hle
    simp only [List.length_cons] at hle
    unfold idxmaxAux
    split_ifs
    · exact ih (i + 1) i x N (by omega) (by omega)
    · exact ih (i + 1) bi bv N hbi (by omega)

theorem idxmax_lt_length (l : List ℚ) (hne : l ≠ []) : idxmax l < l.length := by
  cases l with
  | nil => exact absurd rfl hne
  | cons x xs =>
    unfold idxmax
    exact idxmaxAux_lt xs 1 0 x (x :: xs).length (by simp) (by simp; omega)

theorem length_volume_profile_buckets (closes volumes : List ℚ) (bins : ℕ)
    (edges : ℕ → ℚ) : (volume_profile_buckets closes volumes bins edges).length = bins := by
  simp [volume_profile_buckets]

/-- Claim C8 (amended): on a non-empty series of identical closes the
computation does NOT fall back — `pd.cut` pads the degenerate range and
succeeds — so the profile has one bucket per bin (non-empty for
`bins ≥ 1`) and the point-of-control is the midpoint of the first
maximal bucket's interval, in general different from the last close. -/
theorem volume_profile_constant_closes (c : ℚ) (m : ℕ) (volumes : List ℚ)
    (bins : ℕ) (hb : 0 < bins) :
    (calculate_volume_profile (c :: List.replicate m c) volumes bins).1.length = bins ∧
    (calculate_volume_profile (c :: List.replicate m c) volumes bins).1 ≠ [] ∧
    (calculate_volume_profile (c :: List.replicate m c) volumes bins).2 =
      (cutEdges c c bins (idxmax (volume_profile_buckets (c :: List.replicate m c)
          volumes bins (cutEdges c c bins))) +
       cutEdges c c bins (idxmax (volume_profile_buckets (c :: List.replicate m c)
          volumes bins (cutEdges c c bins)) + 1)) / 2 ∧
    idxmax (volume_profile_buckets (c :: List.replicate m c) volumes bins
      (cutEdges c c bins)) < bins := by
  have hmn : (List.replicate m c).foldl min c = c := foldl_min_replicate c m
  have hmx : (List.replicate m c).foldl max c = c := foldl_max_replicate c m
  have hmain : calculate_volume_profile (c :: List.replicate m c) volumes bins
      = (volume_profile_buckets (c :: List.replicate m c) volumes bins (cutEdges c c bins),
         (cutEdges c c bins (idxmax (volume_profile_buckets (c :: List.replicate m c)
             volumes bins (cutEdges c c bins))) +
          cutEdges c c bins (idxmax (volume_profile_buckets (c :: List.replicate m c)
             volumes bins (cutEdges c c bins)) + 1)) / 2) := by
    simp only [calculate_volume_profile, hmn, hmx]
  rw [hmain]
  have hlen : (volume_profile_buckets (c :: List.replicate m c) volumes bins
      (cutEdges c c bins)).length = bins :=
    length_volume_profile_buckets _ _ _ _
  have hne : volume_profile_buckets (c :: List.replicate m c) volumes bins
      (cutEdges c c bins) ≠ [] := by
    intro he
    rw [he] at hlen
    simp at hlen
    omega
  refine ⟨hlen, hne, rfl, ?_⟩
  have := idxmax_lt_length _ hne
  rwa [hlen] at this

/-- Witness for `volume_profile_constant_closes` at closes `[10, 10]`,
volumes `[1, 1]`, 2 bins. -/
theorem volume_profile_constant_closes_witness :
    (calculate_volume_profile ((10 : ℚ) :: List.replicate 1 (10 : ℚ)) [1, 1] 2).1.length = 2 ∧
    (calculate_volume_profile ((10 : ℚ) :: List.replicate 1 (10 : ℚ)) [1, 1] 2).1 ≠ [] ∧
    (calculate_volume_profile ((10 : ℚ) :: List.replicate 1 (10 : ℚ)) [1, 1] 2).2 =
      (cutEdges 10 10 2 (idxmax (volume_profile_buckets ((10 : ℚ) :: List.replicate 1 (10 : ℚ))
          [1, 1] 2 (cutEdges 10 10 2))) +
       cutEdges 10 10 2 (idxmax (volume_profile_buckets ((10 : ℚ) :: List.replicate 1 (10 : ℚ))
          [1, 1] 2 (cutEdges 10 10 2)) + 1)) / 2 ∧
    idxmax (volume_profile_buckets ((10 : ℚ) :: List.replicate 1 (10 : ℚ)) [1, 1] 2
      (cutEdges 10 10 2)) < 2 :=
  volume_profile_constant_closes 10 1 [1, 1] 2 (by norm_num)

/-- Claim C8, counterexample.  closes `[10, 10]` (all identical),
volumes `[1, 1]`, 2 bins: `pd.cut` pads the range to `[9.99, 10.01]`,
the common close falls in the first bucket, and the result is the
profile `[2, 0]` — not empty — with poc `9.995`, not the last close
`10`. -/
theorem volume_profile_fallback_not_triggered_cex :
    (calculate_volume_profile [10, 10] [1, 1] 2).1 = [2, 0] ∧
    (calculate_volume_profile [10, 10] [1, 1] 2).2 = 1999 / 200 ∧
    ([2, 0] : List ℚ) ≠ [] ∧ ((1999 : ℚ) / 200) ≠ 10 := by
  have hbin : binIndex (cutEdges 10 10 2) 2 10 = some 0 := by
    norm_num [binIndex, cutEdges, List.range_succ]
  have hprof : volume_profile_buckets [10, 10] [1, 1] 2 (cutEdges 10 10 2) = [2, 0] := by
    norm_num [volume_profile_buckets, hbin, List.range_succ, List.filter]
  have hmain : calculate_volume_profile [10, 10] [1, 1] 2
      = (volume_profile_buckets [10, 10] [1, 1] 2 (cutEdges 10 10 2),
         (cutEdges 10 10 2 (idxmax (volume_profile_buckets [10, 10] [1, 1] 2
             (cutEdges 10 10 2))) +
          cutEdges 10 10 2 (idxmax (volume_profile_buckets [10, 10] [1, 1] 2
             (cutEdges 10 10 2)) + 1)) / 2) := by
    simp only [calculate_volume_profile]
    norm_num
  rw [hmain, hprof]
  have hidx : idxmax [(2 : ℚ), 0] = 0 := by
    norm_num [idxmax, idxmaxAux]
  rw [hidx]
  refine ⟨rfl, ?_, by simp, by norm_num⟩
  norm_num [cutEdges]

end OTA
